import Mathlib

/-!
Shallow embedding of the Intcode virtual machine of the repository
`advent-of-code-2019` (file `src/intcode/src/lib.rs`), together with the
machine/pipe layer used by `src/day-7/src/main.rs`.

Conventions of the embedding:
* The Rust type `Value = isize` is modelled as `Int`.  Rust's truncating
  integer division and remainder (`/` and `%` on `isize`) are `Int.tdiv`
  and `Int.tmod`.
* Rust slices `&mut [Value]` become `List Int`, mutated by `List.set`.
* A Rust function returning `Result<T, IntCodeError>` becomes a function
  into `Except _ T`.  A Rust panic (out-of-bounds slice indexing) is a
  distinct outcome from an `IntCodeError`, so the run-time error type
  `RunError` has a dedicated `panicOutOfBounds` constructor next to the
  embedded `IntCodeError`.
* Rust iterators over `memory[ip..]` become operations on `List.drop ip`.
-/

namespace Intcode

/-- Embeds the Rust enum `IntCodeError`.  The payloads of `IoError` and
`ParseError` (an `std::io::Error` and a `ParseIntError`) are dropped. -/
inductive IntCodeError where
  | InvalidOpCode (v : Int)
  | InvalidParameterMode (v : Int)
  | InvalidAddress
  | ImmediateModeOutput
  | UnexpectedEndOfFile
  | IoError
  | ParseError
  deriving Repr, DecidableEq

/-- A run-time outcome that is not a normal return: either a propagated
`IntCodeError`, or a Rust panic caused by indexing a slice out of bounds
(`arr[address]` with `address >= arr.len()` in `Parameter::get` /
`Parameter::set`). -/
inductive RunError where
  | intcode (e : IntCodeError)
  | panicOutOfBounds
  deriving Repr, DecidableEq

/-- Embeds the Rust enum `ParameterMode`. -/
inductive ParameterMode where
  | Reference
  | Immediate
  deriving Repr, DecidableEq

/-- Embeds `impl TryFrom<Value> for ParameterMode`: 0 is Reference, 1 is
Immediate, anything else is `InvalidParameterMode`. -/
def ParameterMode.tryFrom (value : Int) : Except IntCodeError ParameterMode :=
  if value = 0 then .ok .Reference
  else if value = 1 then .ok .Immediate
  else .error (.InvalidParameterMode value)

/-- Embeds the Rust enum `OpCode`: an operation tag carrying one
addressing mode per operand. -/
inductive OpCode where
  | Add (m1 m2 m3 : ParameterMode)
  | Multiply (m1 m2 m3 : ParameterMode)
  | Input (m1 : ParameterMode)
  | Output (m1 : ParameterMode)
  | JumpIfTrue (m1 m2 : ParameterMode)
  | JumpIfFalse (m1 m2 : ParameterMode)
  | LessThan (m1 m2 m3 : ParameterMode)
  | Equals (m1 m2 m3 : ParameterMode)
  | Exit
  deriving Repr, DecidableEq

/-- Embeds `OpCode::num_args`. -/
def OpCode.num_args : OpCode → Nat
  | .Add .. => 3
  | .Multiply .. => 3
  | .Input .. => 1
  | .Output .. => 1
  | .JumpIfTrue .. => 2
  | .JumpIfFalse .. => 2
  | .LessThan .. => 3
  | .Equals .. => 3
  | .Exit => 0

/-- The mode digit the Rust macro `params!(i + 1)` extracts from
`modes = value / 100`: `modes % 10`, `(modes / 10) % 10`,
`(modes / 100) % 10` for the 1st, 2nd, 3rd operand. -/
def modeDigit (value : Int) : Nat → Int
  | 0 => Int.tmod (Int.tdiv value 100) 10
  | 1 => Int.tmod (Int.tdiv (Int.tdiv value 100) 10) 10
  | _ => Int.tmod (Int.tdiv (Int.tdiv value 100) 100) 10

/-- Embeds `impl TryFrom<&Value> for OpCode`.  The macro `params!(i)`
extracts the i-th mode digit of `value / 100` (here `modeDigit`) and
converts it via `ParameterMode::try_from` (left-to-right, failing at the
first bad digit); the match on `value % 100` selects the operation,
defaulting to `InvalidOpCode`. -/
def OpCode.tryFrom (value : Int) : Except IntCodeError OpCode :=
  let d1 := modeDigit value 0
  let d2 := modeDigit value 1
  let d3 := modeDigit value 2
  if Int.tmod value 100 = 1 then do
    .ok (.Add (← ParameterMode.tryFrom d1) (← ParameterMode.tryFrom d2)
      (← ParameterMode.tryFrom d3))
  else if Int.tmod value 100 = 2 then do
    .ok (.Multiply (← ParameterMode.tryFrom d1) (← ParameterMode.tryFrom d2)
      (← ParameterMode.tryFrom d3))
  else if Int.tmod value 100 = 3 then do
    .ok (.Input (← ParameterMode.tryFrom d1))
  else if Int.tmod value 100 = 4 then do
    .ok (.Output (← ParameterMode.tryFrom d1))
  else if Int.tmod value 100 = 5 then do
    .ok (.JumpIfTrue (← ParameterMode.tryFrom d1) (← ParameterMode.tryFrom d2))
  else if Int.tmod value 100 = 6 then do
    .ok (.JumpIfFalse (← ParameterMode.tryFrom d1) (← ParameterMode.tryFrom d2))
  else if Int.tmod value 100 = 7 then do
    .ok (.LessThan (← ParameterMode.tryFrom d1) (← ParameterMode.tryFrom d2)
      (← ParameterMode.tryFrom d3))
  else if Int.tmod value 100 = 8 then do
    .ok (.Equals (← ParameterMode.tryFrom d1) (← ParameterMode.tryFrom d2)
      (← ParameterMode.tryFrom d3))
  else if Int.tmod value 100 = 99 then .ok .Exit
  else .error (.InvalidOpCode value)

/-- The raw opcode values the decoder accepts (`value % 100`). -/
def validRawOp (op : Int) : Prop :=
  op = 1 ∨ op = 2 ∨ op = 3 ∨ op = 4 ∨ op = 5 ∨ op = 6 ∨ op = 7 ∨ op = 8 ∨
    op = 99

instance (op : Int) : Decidable (validRawOp op) := by
  unfold validRawOp; infer_instance

/-- Operand count per raw opcode value, matching `OpCode::num_args`. -/
def rawNumArgs (op : Int) : Nat :=
  if op = 1 ∨ op = 2 ∨ op = 7 ∨ op = 8 then 3
  else if op = 3 ∨ op = 4 then 1
  else if op = 5 ∨ op = 6 then 2
  else 0

/-- Embeds the Rust struct `Parameter`: an addressing mode together with
the raw operand cell value. -/
structure Parameter where
  mode : ParameterMode
  value : Int
  deriving Repr, DecidableEq

/-- Embeds `isize -> usize` conversion (`try_into` composed with
`From<TryFromIntError> for IntCodeError`): a negative value fails with
`InvalidAddress`. -/
def tryIntoUsize (v : Int) : Except IntCodeError Nat :=
  if v < 0 then .error .InvalidAddress else .ok v.toNat

/-- Embeds `Parameter::get`: Immediate returns the raw value; Reference
converts it to an index (negative fails with `InvalidAddress`) and reads
`arr[address]`, which panics when the index is out of bounds. -/
def Parameter.get (p : Parameter) (arr : List Int) : Except RunError Int :=
  match p.mode with
  | .Immediate => .ok p.value
  | .Reference =>
    match tryIntoUsize p.value with
    | .error e => .error (.intcode e)
    | .ok address =>
      match arr.get? address with
      | some v => .ok v
      | none => .error .panicOutOfBounds

/-- Embeds `Parameter::set`: Immediate mode fails with
`ImmediateModeOutput`; otherwise the raw value is converted to an index
(negative fails with `InvalidAddress`) and `arr[address] = value`, which
panics when the index is out of bounds.  Returns the updated memory. -/
def Parameter.set (p : Parameter) (value : Int) (arr : List Int) :
    Except RunError (List Int) :=
  match p.mode with
  | .Immediate => .error (.intcode .ImmediateModeOutput)
  | .Reference =>
    match tryIntoUsize p.value with
    | .error e => .error (.intcode e)
    | .ok address =>
      if address < arr.length then .ok (arr.set address value)
      else .error .panicOutOfBounds

/-- Embeds the Rust enum `Command`: an operation with fully read
parameters. -/
inductive Command where
  | Add (p1 p2 p3 : Parameter)
  | Multiply (p1 p2 p3 : Parameter)
  | Input (p : Parameter)
  | Output (p : Parameter)
  | JumpIfTrue (p1 p2 : Parameter)
  | JumpIfFalse (p1 p2 : Parameter)
  | LessThan (p1 p2 p3 : Parameter)
  | Equals (p1 p2 p3 : Parameter)
  | Stop
  deriving Repr, DecidableEq

/-- Embeds `Command::from_op_code` applied to the arg vector produced by
`Command::read_args`.  The Rust code indexes `args[0] .. args[2]`; the
caller (`read_command`) has already checked `args.len() == num_args`,
so the `getD _ 0` defaults are never used at those call sites. -/
def Command.from_op_code (op : OpCode) (args : List Int) : Command :=
  match op with
  | .Add m1 m2 m3 =>
    .Add ⟨m1, args.getD 0 0⟩ ⟨m2, args.getD 1 0⟩ ⟨m3, args.getD 2 0⟩
  | .Multiply m1 m2 m3 =>
    .Multiply ⟨m1, args.getD 0 0⟩ ⟨m2, args.getD 1 0⟩ ⟨m3, args.getD 2 0⟩
  | .Input m1 => .Input ⟨m1, args.getD 0 0⟩
  | .Output m1 => .Output ⟨m1, args.getD 0 0⟩
  | .JumpIfTrue m1 m2 => .JumpIfTrue ⟨m1, args.getD 0 0⟩ ⟨m2, args.getD 1 0⟩
  | .JumpIfFalse m1 m2 => .JumpIfFalse ⟨m1, args.getD 0 0⟩ ⟨m2, args.getD 1 0⟩
  | .LessThan m1 m2 m3 =>
    .LessThan ⟨m1, args.getD 0 0⟩ ⟨m2, args.getD 1 0⟩ ⟨m3, args.getD 2 0⟩
  | .Equals m1 m2 m3 =>
    .Equals ⟨m1, args.getD 0 0⟩ ⟨m2, args.getD 1 0⟩ ⟨m3, args.getD 2 0⟩
  | .Exit => .Stop

/-- Embeds `Command::read_command` over the iterator
`memory[ip..].into_iter()`.  `read_next` takes the opcode cell (empty
iterator fails with `UnexpectedEndOfFile`), `OpCode::try_from` decodes
it, `read_args` takes `num_args` operand cells (fewer remaining fails
with `UnexpectedEndOfFile`), and the result is
`(num_args + 1, command)`. -/
def readCommand (memory : List Int) (ip : Nat) :
    Except IntCodeError (Nat × Command) := do
  let tail := memory.drop ip
  let v ← match tail.head? with
    | some v => Except.ok v
    | none => Except.error IntCodeError.UnexpectedEndOfFile
  let op ← OpCode.tryFrom v
  let n := op.num_args
  let args := tail.tail.take n
  if args.length < n then .error .UnexpectedEndOfFile
  else .ok (n + 1, Command.from_op_code op args)

/-- Embeds `Command::execute`.  The Rust version threads a `BufRead`
input and a `Write` output; here the input is a queue of already parsed
values and the output is the list of emitted values.  An `Input` command
on an exhausted queue models Rust reading an empty line and failing to
parse it (`ParseError`).  The result is
`(memory, remaining input, emitted output, optional jump target)`;
`Stop` returns without touching anything, mirroring `Ok(None)`. -/
def Command.execute (c : Command) (memory : List Int) (inputs : List Int) :
    Except RunError (List Int × List Int × List Int × Option Nat) :=
  match c with
  | .Stop => .ok (memory, inputs, [], none)
  | .Add x y r => do
    let a ← x.get memory
    let b ← y.get memory
    let memory ← r.set (a + b) memory
    .ok (memory, inputs, [], none)
  | .Multiply x y r => do
    let a ← x.get memory
    let b ← y.get memory
    let memory ← r.set (a * b) memory
    .ok (memory, inputs, [], none)
  | .Input address =>
    match inputs with
    | [] => .error (.intcode .ParseError)
    | v :: rest => do
      let memory ← address.set v memory
      .ok (memory, rest, [], none)
  | .Output address => do
    let v ← address.get memory
    .ok (memory, inputs, [v], none)
  | .LessThan x y r => do
    let a ← x.get memory
    let b ← y.get memory
    let memory ← r.set (if a < b then 1 else 0) memory
    .ok (memory, inputs, [], none)
  | .Equals x y r => do
    let a ← x.get memory
    let b ← y.get memory
    let memory ← r.set (if a = b then 1 else 0) memory
    .ok (memory, inputs, [], none)
  | .JumpIfTrue cond address => do
    let c ← cond.get memory
    if c ≠ 0 then do
      let t ← address.get memory
      match tryIntoUsize t with
      | .error e => .error (.intcode e)
      | .ok target => .ok (memory, inputs, [], some target)
    else .ok (memory, inputs, [], none)
  | .JumpIfFalse cond address => do
    let c ← cond.get memory
    if c = 0 then do
      let t ← address.get memory
      match tryIntoUsize t with
      | .error e => .error (.intcode e)
      | .ok target => .ok (memory, inputs, [], some target)
    else .ok (memory, inputs, [], none)

/-- Embeds the loop of `run_intcode`, with an explicit fuel argument for
termination (`none` means the fuel ran out before the Rust loop did).
Each iteration: if `instruction_pointer > length`, fail with
`UnexpectedEndOfFile`; read a command at the pointer; on `Stop` return
the output (and the memory, which in Rust is the caller's mutable
slice); otherwise execute it and either jump or advance by
`num_args + 1`. -/
def runIntcode : Nat → Nat → List Int → List Int → List Int →
    Option (Except RunError (List Int × List Int))
  | 0, _, _, _, _ => none
  | fuel + 1, ip, memory, inputs, outputs =>
    if ip > memory.length then
      some (.error (.intcode .UnexpectedEndOfFile))
    else
      match readCommand memory ip with
      | .error e => some (.error (.intcode e))
      | .ok (advance, cmd) =>
        match cmd with
        | .Stop => some (.ok (memory, outputs))
        | _ =>
          match cmd.execute memory inputs with
          | .error e => some (.error e)
          | .ok (memory', inputs', outs, jump) =>
            runIntcode fuel (jump.getD (ip + advance)) memory' inputs'
              (outputs ++ outs)

/-- Modelled from the spec: the run-state variant
{Running, Awaiting-Input, Finished} of the execution engine.  The
machine layer (`IntCodeMachine`, the `Machine` trait and `Pipe`) that
`src/day-7/src/main.rs` imports from the `intcode` crate is missing from
the `src/` snapshot; it is reconstructed here from spec sections 4.3 and
4.4. -/
inductive RunState where
  | Running
  | AwaitingInput
  | Finished
  deriving Repr, DecidableEq

/-- Modelled from the spec: an `IntCodeMachine` owns a memory sequence,
an instruction pointer and a run state (sections 3 and 4.3); the struct
itself is missing from the `src/` snapshot. -/
structure IntCodeMachine where
  memory : List Int
  ip : Nat
  state : RunState
  deriving Repr, DecidableEq

/-- Modelled from the spec: construct a machine from a memory sequence
(pointer at 0, Running). -/
def IntCodeMachine.new (memory : List Int) : IntCodeMachine :=
  ⟨memory, 0, .Running⟩

/-- Modelled from the spec: `finished() -> bool` is true exactly in the
Finished state. -/
def IntCodeMachine.finished (m : IntCodeMachine) : Bool :=
  m.state = .Finished

/-- Modelled from the spec: the cycle loop of one `execute` call of the
execution engine (spec section 4.3), with explicit fuel (`none` = fuel
ran out).  `outputs` is the output accumulated since the call began.
A Finished machine returns immediately; otherwise each cycle decodes at
the instruction pointer exactly as `run_intcode` does.  On `Input` with
an empty queue the pointer is not advanced (rolled back to the start of
the instruction), the state becomes Awaiting-Input and the call returns
the output accumulated so far.  On `Stop` the state becomes Finished.
All other commands are delegated to `Command.execute`. -/
def machineRun : Nat → IntCodeMachine → List Int → List Int →
    Option (Except RunError (IntCodeMachine × List Int))
  | 0, _, _, _ => none
  | fuel + 1, m, inputs, outputs =>
    match m.state with
    | .Finished => some (.ok (m, outputs))
    | _ =>
      if m.ip > m.memory.length then
        some (.error (.intcode .UnexpectedEndOfFile))
      else
        match readCommand m.memory m.ip with
        | .error e => some (.error (.intcode e))
        | .ok (advance, cmd) =>
          match cmd with
          | .Stop => some (.ok ({ m with state := .Finished }, outputs))
          | .Input p =>
            match inputs with
            | [] => some (.ok ({ m with state := .AwaitingInput }, outputs))
            | v :: rest =>
              match p.set v m.memory with
              | .error e => some (.error e)
              | .ok memory' =>
                machineRun fuel
                  ⟨memory', m.ip + advance, .Running⟩ rest outputs
          | _ =>
            match cmd.execute m.memory inputs with
            | .error e => some (.error e)
            | .ok (memory', inputs', outs, jump) =>
              machineRun fuel
                ⟨memory', jump.getD (m.ip + advance), .Running⟩ inputs'
                (outputs ++ outs)

/-- Modelled from the spec: `execute(input_values) -> output_values`
mutates the machine and returns the outputs newly produced during this
call (the per-call output accumulator starts empty). -/
def IntCodeMachine.execute (fuel : Nat) (m : IntCodeMachine)
    (inputs : List Int) :
    Option (Except RunError (IntCodeMachine × List Int)) :=
  machineRun fuel m inputs []

/-- Modelled from the spec: the closed universe of executable units used
by `src/day-7/src/main.rs` — a single interpreter, or a `Pipe` of two
units (spec section 4.4). -/
inductive ExecUnit where
  | machine (m : IntCodeMachine)
  | pipe (a b : ExecUnit)
  deriving Repr, DecidableEq

/-- Modelled from the spec: `finished()` of a pipe is true once either
member is Finished. -/
def ExecUnit.finished : ExecUnit → Bool
  | .machine m => m.finished
  | .pipe a b => a.finished || b.finished

/-- Modelled from the spec: `execute` of a pipe of A and B first calls
`A.execute(input)`, feeds A's returned output directly as B's input, and
returns B's output; the first error raised by a member is surfaced and
the chain is not continued. -/
def ExecUnit.execute (fuel : Nat) : ExecUnit → List Int →
    Option (Except RunError (ExecUnit × List Int))
  | .machine m, inputs =>
    match m.execute fuel inputs with
    | none => none
    | some (.error e) => some (.error e)
    | some (.ok (m', out)) => some (.ok (.machine m', out))
  | .pipe a b, inputs =>
    match a.execute fuel inputs with
    | none => none
    | some (.error e) => some (.error e)
    | some (.ok (a', outA)) =>
      match b.execute fuel outA with
      | none => none
      | some (.error e) => some (.error e)
      | some (.ok (b', outB)) => some (.ok (.pipe a' b', outB))

/-- The Unicode White_Space code points recognised by Rust's
`str::trim` (`char::is_whitespace`). -/
def isWhitespace (c : Char) : Bool :=
  c.toNat ∈ [9, 10, 11, 12, 13, 32, 0x85, 0xA0, 0x1680,
    0x2000, 0x2001, 0x2002, 0x2003, 0x2004, 0x2005, 0x2006, 0x2007,
    0x2008, 0x2009, 0x200A, 0x2028, 0x2029, 0x202F, 0x205F, 0x3000]

/-- Embeds `str::trim`: strip whitespace from both ends. -/
def trimChars (s : List Char) : List Char :=
  ((s.dropWhile isWhitespace).reverse.dropWhile isWhitespace).reverse

/-- Embeds `str::split(",")`: cut the character list at every comma;
`n` commas always yield `n + 1` (possibly empty) fields. -/
def splitComma : List Char → List (List Char)
  | [] => [[]]
  | c :: rest =>
    match splitComma rest with
    | [] => [[]]
    | f :: fs => if c = ',' then [] :: f :: fs else (c :: f) :: fs

/-- The numeric value of a decimal digit character, if it is one. -/
def digitVal (c : Char) : Option Nat :=
  if '0' ≤ c ∧ c ≤ '9' then some (c.toNat - 48) else none

/-- Left-to-right decimal accumulation over a digit string; any
non-digit character fails. -/
def parseNatAux : List Char → Nat → Option Nat
  | [], acc => some acc
  | c :: rest, acc =>
    match digitVal c with
    | none => none
    | some d => parseNatAux rest (acc * 10 + d)

/-- A non-empty all-digit string parsed as a natural number. -/
def parseNatDigits (cs : List Char) : Option Nat :=
  match cs with
  | [] => none
  | _ => parseNatAux cs 0

/-- Embeds `str::parse::<isize>`: an optional sign followed by at least
one decimal digit, the whole string consumed, and the resulting value
within the 64-bit `isize` range (Rust fails with overflow otherwise).
No surrounding whitespace is accepted. -/
def parseIsize (cs : List Char) : Option Int :=
  let signedVal : Option Int :=
    match cs with
    | [] => none
    | c :: rest =>
      if c = '-' then (parseNatDigits rest).map (fun n => -(n : Int))
      else if c = '+' then (parseNatDigits rest).map (fun n => (n : Int))
      else (parseNatDigits cs).map (fun n => (n : Int))
  match signedVal with
  | none => none
  | some v => if -(2 ^ 63) ≤ v ∧ v ≤ 2 ^ 63 - 1 then some v else none

/-- Embeds the load-error side of `read_intcode_input`: the function
returns `Result<_, ParseError>` where `ParseError` boxes the
`ParseIntError` of the failing element — a type distinct from the VM's
`IntCodeError` / run-time errors. -/
inductive LoadError where
  | parseIntError
  deriving Repr, DecidableEq

/-- Embeds `read_intcode_input` applied to the single line read from the
input: trim the line, split it on commas, parse every field as an
`isize`; the fields are collected in order, and the first field that
fails to parse fails the whole load with a `ParseError`. -/
def read_intcode_input (line : List Char) : Except LoadError (List Int) :=
  match (splitComma (trimChars line)).mapM parseIsize with
  | some values => .ok values
  | none => .error .parseIntError

/-- Decimal digit character for a value below ten (spec-side renderer
used to state the load round-trip; not part of the source). -/
def digitChar (d : Nat) : Char :=
  match d with
  | 0 => '0' | 1 => '1' | 2 => '2' | 3 => '3' | 4 => '4'
  | 5 => '5' | 6 => '6' | 7 => '7' | 8 => '8' | 9 => '9'
  | _ => '*'

/-- Decimal digit string of a natural number (most significant first). -/
def natToDigits (n : Nat) : List Char :=
  if _h : n < 10 then [digitChar n]
  else natToDigits (n / 10) ++ [digitChar (n % 10)]
  termination_by n
  decreasing_by exact Nat.div_lt_self (by omega) (by omega)

/-- Decimal rendering of an integer, with a leading minus sign when
negative. -/
def intToDigits (v : Int) : List Char :=
  if v < 0 then '-' :: natToDigits (-v).toNat else natToDigits v.toNat

/-- Comma-separated decimal rendering of an integer list. -/
def renderIntList : List Int → List Char
  | [] => []
  | [v] => intToDigits v
  | v :: w :: rs => intToDigits v ++ ',' :: renderIntList (w :: rs)

end Intcode

namespace Intcode

theorem pm_tryFrom_bad (d : Int) (h : ¬(d = 0 ∨ d = 1)) :
    ParameterMode.tryFrom d = .error (.InvalidParameterMode d) := by
  unfold ParameterMode.tryFrom
  rw [if_neg, if_neg] <;> tauto

theorem tryFrom_ok_of_good (v : Int) (hop : validRawOp (Int.tmod v 100))
    (h : ∀ i < rawNumArgs (Int.tmod v 100),
      modeDigit v i = 0 ∨ modeDigit v i = 1) :
    ∃ op, OpCode.tryFrom v = .ok op := by
  unfold validRawOp at hop
  rcases hop with h1 | h1 | h1 | h1 | h1 | h1 | h1 | h1 | h1
  case inl | inr.inl | inr.inr.inr.inr.inr.inr.inl | inr.inr.inr.inr.inr.inr.inr.inl =>
    have g0 := h 0 (by rw [h1]; norm_num [rawNumArgs])
    have g1 := h 1 (by rw [h1]; norm_num [rawNumArgs])
    have g2 := h 2 (by rw [h1]; norm_num [rawNumArgs])
    rcases g0 with g0 | g0 <;> rcases g1 with g1 | g1 <;> rcases g2 with g2 | g2 <;>
      exact ⟨_, by simp [OpCode.tryFrom, h1, g0, g1, g2, ParameterMode.tryFrom]; rfl⟩
  case inr.inr.inl | inr.inr.inr.inl =>
    have g0 := h 0 (by rw [h1]; norm_num [rawNumArgs])
    rcases g0 with g0 | g0 <;>
      exact ⟨_, by simp [OpCode.tryFrom, h1, g0, ParameterMode.tryFrom]; rfl⟩
  case inr.inr.inr.inr.inl | inr.inr.inr.inr.inr.inl =>
    have g0 := h 0 (by rw [h1]; norm_num [rawNumArgs])
    have g1 := h 1 (by rw [h1]; norm_num [rawNumArgs])
    rcases g0 with g0 | g0 <;> rcases g1 with g1 | g1 <;>
      exact ⟨_, by simp [OpCode.tryFrom, h1, g0, g1, ParameterMode.tryFrom]; rfl⟩
  case _ =>
    exact ⟨.Exit, by simp [OpCode.tryFrom, h1]⟩

end Intcode

namespace Intcode

theorem tryFrom_invalid_op (v : Int) (hop : ¬ validRawOp (Int.tmod v 100)) :
    OpCode.tryFrom v = .error (.InvalidOpCode v) := by
  unfold validRawOp at hop
  push_neg at hop
  obtain ⟨n1, n2, n3, n4, n5, n6, n7, n8, n9⟩ := hop
  simp [OpCode.tryFrom, n1, n2, n3, n4, n5, n6, n7, n8, n9]

theorem tryFrom_err_of_bad (v : Int) (hop : validRawOp (Int.tmod v 100))
    (h : ¬ ∀ i < rawNumArgs (Int.tmod v 100),
      modeDigit v i = 0 ∨ modeDigit v i = 1) :
    ∃ d, OpCode.tryFrom v = .error (.InvalidParameterMode d) ∧
      ¬ (d = 0 ∨ d = 1) := by
  unfold validRawOp at hop
  rcases hop with h1 | h1 | h1 | h1 | h1 | h1 | h1 | h1 | h1
  case inl | inr.inl | inr.inr.inr.inr.inr.inr.inl | inr.inr.inr.inr.inr.inr.inr.inl =>
    rw [h1] at h
    by_cases b0 : modeDigit v 0 = 0 ∨ modeDigit v 0 = 1
    · by_cases b1 : modeDigit v 1 = 0 ∨ modeDigit v 1 = 1
      · by_cases b2 : modeDigit v 2 = 0 ∨ modeDigit v 2 = 1
        · exact absurd (fun i hi => by
            norm_num [rawNumArgs] at hi
            interval_cases i <;> assumption) h
        · refine ⟨modeDigit v 2, ?_, b2⟩
          obtain ⟨c0, c1⟩ := not_or.mp b2
          rcases b0 with g0 | g0 <;> rcases b1 with g1 | g1 <;>
            simp [OpCode.tryFrom, h1, g0, g1, c0, c1, ParameterMode.tryFrom, Except.instMonad, Except.bind]
      · refine ⟨modeDigit v 1, ?_, b1⟩
        obtain ⟨c0, c1⟩ := not_or.mp b1
        rcases b0 with g0 | g0 <;>
          simp [OpCode.tryFrom, h1, g0, c0, c1, ParameterMode.tryFrom, Except.instMonad, Except.bind]
    · obtain ⟨c0, c1⟩ := not_or.mp b0
      exact ⟨modeDigit v 0,
        by simp [OpCode.tryFrom, h1, c0, c1, ParameterMode.tryFrom, Except.instMonad, Except.bind], b0⟩
  case inr.inr.inl | inr.inr.inr.inl =>
    rw [h1] at h
    by_cases b0 : modeDigit v 0 = 0 ∨ modeDigit v 0 = 1
    · exact absurd (fun i hi => by
        norm_num [rawNumArgs, Nat.lt_one_iff] at hi
        subst hi; exact b0) h
    · obtain ⟨c0, c1⟩ := not_or.mp b0
      exact ⟨modeDigit v 0,
        by simp [OpCode.tryFrom, h1, c0, c1, ParameterMode.tryFrom, Except.instMonad, Except.bind], b0⟩
  case inr.inr.inr.inr.inl | inr.inr.inr.inr.inr.inl =>
    rw [h1] at h
    by_cases b0 : modeDigit v 0 = 0 ∨ modeDigit v 0 = 1
    · by_cases b1 : modeDigit v 1 = 0 ∨ modeDigit v 1 = 1
      · exact absurd (fun i hi => by
          norm_num [rawNumArgs] at hi
          interval_cases i <;> assumption) h
      · refine ⟨modeDigit v 1, ?_, b1⟩
        obtain ⟨c0, c1⟩ := not_or.mp b1
        rcases b0 with g0 | g0 <;>
          simp [OpCode.tryFrom, h1, g0, c0, c1, ParameterMode.tryFrom, Except.instMonad, Except.bind]
    · obtain ⟨c0, c1⟩ := not_or.mp b0
      exact ⟨modeDigit v 0,
        by simp [OpCode.tryFrom, h1, c0, c1, ParameterMode.tryFrom, Except.instMonad, Except.bind], b0⟩
  case _ =>
    rw [h1] at h
    exact absurd (fun i hi => by norm_num [rawNumArgs] at hi) h

end Intcode

namespace Intcode

/-- C2: decoding an instruction cell succeeds exactly when the low two
decimal digits (`value % 100`) select one of the operations
1,2,3,4,5,6,7,8,99 and every mode digit the operation needs is 0 or 1;
an unrecognized operation value fails with `InvalidOpCode`, and a needed
mode digit other than 0 or 1 fails with `InvalidParameterMode`. -/
theorem claim_C2_decoder (v : Int) :
    ((∃ op, OpCode.tryFrom v = .ok op) ↔
      (validRawOp (Int.tmod v 100) ∧
        ∀ i < rawNumArgs (Int.tmod v 100),
          modeDigit v i = 0 ∨ modeDigit v i = 1)) ∧
    (¬ validRawOp (Int.tmod v 100) →
      OpCode.tryFrom v = .error (.InvalidOpCode v)) ∧
    (validRawOp (Int.tmod v 100) →
      ¬ (∀ i < rawNumArgs (Int.tmod v 100),
          modeDigit v i = 0 ∨ modeDigit v i = 1) →
      ∃ d, OpCode.tryFrom v = .error (.InvalidParameterMode d) ∧
        ¬ (d = 0 ∨ d = 1)) := by
  refine ⟨⟨?_, fun ⟨hop, hd⟩ => tryFrom_ok_of_good v hop hd⟩,
    tryFrom_invalid_op v, tryFrom_err_of_bad v⟩
  rintro ⟨op, hok⟩
  by_cases hop : validRawOp (Int.tmod v 100)
  · refine ⟨hop, ?_⟩
    by_contra hbad
    obtain ⟨d, herr, -⟩ := tryFrom_err_of_bad v hop hbad
    rw [hok] at herr
    cases herr
  · have := tryFrom_invalid_op v hop
    rw [hok] at this
    cases this

theorem claim_C2_decoder_witness :
    (∃ op, OpCode.tryFrom 1002 = .ok op) ∧
    OpCode.tryFrom 5000 = .error (.InvalidOpCode 5000) ∧
    (∃ d, OpCode.tryFrom 303 = .error (.InvalidParameterMode d) ∧
      ¬ (d = 0 ∨ d = 1)) :=
  ⟨(claim_C2_decoder 1002).1.mpr (by decide),
   (claim_C2_decoder 5000).2.1 (by decide),
   (claim_C2_decoder 303).2.2 (by decide) (by decide)⟩

/-- C10: the decoder validates only as many mode digits of `value / 100`
as the decoded operation has operands; whatever the higher decimal
digits are, decoding succeeds whenever the needed digits are 0 or 1, so
unused digits never cause `InvalidParameterMode` — in particular 2103
decodes as Input in Immediate mode despite its unused tens mode digit 2,
and 10099 decodes as Halt. -/
theorem claim_C10_higher_digits_ignored :
    (∀ v : Int, validRawOp (Int.tmod v 100) →
      (∀ i < rawNumArgs (Int.tmod v 100),
        modeDigit v i = 0 ∨ modeDigit v i = 1) →
      ∃ op, OpCode.tryFrom v = .ok op) ∧
    OpCode.tryFrom 2103 = .ok (.Input .Immediate) ∧
    OpCode.tryFrom 10099 = .ok .Exit :=
  ⟨tryFrom_ok_of_good, rfl, rfl⟩

theorem claim_C10_higher_digits_ignored_witness :
    ∃ op, OpCode.tryFrom 9901002 = .ok op :=
  claim_C10_higher_digits_ignored.1 9901002 (by decide) (by decide)

end Intcode

namespace Intcode

/-- C5: using an Immediate-mode parameter as a write target fails with
`ImmediateModeOutput` (the write is rejected, never silently ignored),
while a Reference-mode parameter with a non-negative in-range index
stores the new value at that indexed cell. -/
theorem claim_C5_write_semantics (p : Parameter) (v : Int) (arr : List Int) :
    (p.mode = .Immediate →
      p.set v arr = .error (.intcode .ImmediateModeOutput)) ∧
    (p.mode = .Reference → 0 ≤ p.value → p.value.toNat < arr.length →
      p.set v arr = .ok (arr.set p.value.toNat v)) := by
  constructor
  · intro h
    simp [Parameter.set, h]
  · intro h h0 hlt
    simp [Parameter.set, h, tryIntoUsize, not_lt.mpr h0, hlt]

theorem claim_C5_write_semantics_witness :
    (Parameter.mk .Immediate 1).set 5 [7, 8] =
      .error (.intcode .ImmediateModeOutput) ∧
    (Parameter.mk .Reference 1).set 5 [7, 8] = .ok [7, 5] := by
  constructor
  · exact (claim_C5_write_semantics ⟨.Immediate, 1⟩ 5 [7, 8]).1 rfl
  · have := (claim_C5_write_semantics ⟨.Reference, 1⟩ 5 [7, 8]).2 rfl
      (by decide) (by decide)
    simpa using this

/-- C6: reading an Immediate-mode parameter returns the raw operand
value directly; Reference mode treats the raw value as a memory index
and returns the value stored there, failing with `InvalidAddress` when
the value is negative (not representable as an index), and a
non-negative index at or beyond the memory length is a fatal out-of-
bounds panic for that execution, never a silent success. -/
theorem claim_C6_read_semantics (p : Parameter) (arr : List Int) :
    (p.mode = .Immediate → p.get arr = .ok p.value) ∧
    (p.mode = .Reference → p.value < 0 →
      p.get arr = .error (.intcode .InvalidAddress)) ∧
    (p.mode = .Reference → 0 ≤ p.value →
      ∀ h : p.value.toNat < arr.length,
        p.get arr = .ok (arr.get ⟨p.value.toNat, h⟩)) ∧
    (p.mode = .Reference → 0 ≤ p.value → arr.length ≤ p.value.toNat →
      p.get arr = .error .panicOutOfBounds) := by
  refine ⟨fun h => by simp [Parameter.get, h], fun h hneg => ?_,
    fun h h0 hlt => ?_, fun h h0 hge => ?_⟩
  · simp [Parameter.get, h, tryIntoUsize, hneg]
  · simp [Parameter.get, h, tryIntoUsize, not_lt.mpr h0,
      List.getElem?_eq_getElem hlt]
  · simp [Parameter.get, h, tryIntoUsize, not_lt.mpr h0,
      List.getElem?_eq_none hge]

theorem claim_C6_read_semantics_witness :
    (Parameter.mk .Immediate 5).get [7, 8] = .ok 5 ∧
    (Parameter.mk .Reference (-1)).get [7, 8] =
      .error (.intcode .InvalidAddress) ∧
    (Parameter.mk .Reference 1).get [7, 8] = .ok 8 ∧
    (Parameter.mk .Reference 2).get [7, 8] = .error .panicOutOfBounds := by
  refine ⟨(claim_C6_read_semantics ⟨.Immediate, 5⟩ [7, 8]).1 rfl,
    (claim_C6_read_semantics ⟨.Reference, -1⟩ [7, 8]).2.1 rfl (by decide),
    ?_,
    (claim_C6_read_semantics ⟨.Reference, 2⟩ [7, 8]).2.2.2 rfl (by decide)
      (by decide)⟩
  have := (claim_C6_read_semantics ⟨.Reference, 1⟩ [7, 8]).2.2.1 rfl
    (by decide) (by decide)
  simpa using this

end Intcode

namespace Intcode

/-- C3: at a Jump-if-true instruction whose first operand resolves to a
nonzero value, the loop continues at the mode-resolved second operand
instead of the default post-operand position; if the first operand
resolves to zero it continues at `ip + 3` (past the opcode and its two
operand cells).  Jump-if-false behaves symmetrically with the condition
that the first operand resolves to zero. -/
theorem claim_C3_jumps (fuel ip : Nat) (memory inputs outputs : List Int)
    (p1 p2 : Parameter) (hip : ip ≤ memory.length) :
    (readCommand memory ip = .ok (3, .JumpIfTrue p1 p2) →
      (∀ c, p1.get memory = .ok c → c ≠ 0 →
        ∀ t n, p2.get memory = .ok t → tryIntoUsize t = .ok n →
          runIntcode (fuel + 1) ip memory inputs outputs =
            runIntcode fuel n memory inputs outputs) ∧
      (p1.get memory = .ok 0 →
        runIntcode (fuel + 1) ip memory inputs outputs =
          runIntcode fuel (ip + 3) memory inputs outputs)) ∧
    (readCommand memory ip = .ok (3, .JumpIfFalse p1 p2) →
      (p1.get memory = .ok 0 →
        ∀ t n, p2.get memory = .ok t → tryIntoUsize t = .ok n →
          runIntcode (fuel + 1) ip memory inputs outputs =
            runIntcode fuel n memory inputs outputs) ∧
      (∀ c, p1.get memory = .ok c → c ≠ 0 →
        runIntcode (fuel + 1) ip memory inputs outputs =
          runIntcode fuel (ip + 3) memory inputs outputs)) := by
  constructor
  · intro hread
    constructor
    · intro c hc hcne t n ht hn
      simp [runIntcode, not_lt.mpr hip, hread, Command.execute, hc, hcne,
        ht, hn, Except.instMonad, Except.bind]
    · intro hc
      simp [runIntcode, not_lt.mpr hip, hread, Command.execute, hc,
        Except.instMonad, Except.bind]
  · intro hread
    constructor
    · intro hc t n ht hn
      simp [runIntcode, not_lt.mpr hip, hread, Command.execute, hc,
        ht, hn, Except.instMonad, Except.bind]
    · intro c hc hcne
      simp [runIntcode, not_lt.mpr hip, hread, Command.execute, hc, hcne,
        Except.instMonad, Except.bind]

theorem claim_C3_jumps_witness :
    runIntcode 2 0 [1105, 1, 4, 99, 99] [] [] =
      runIntcode 1 4 [1105, 1, 4, 99, 99] [] [] ∧
    runIntcode 2 0 [1106, 0, 4, 99, 99] [] [] =
      runIntcode 1 4 [1106, 0, 4, 99, 99] [] [] ∧
    runIntcode 2 0 [1105, 0, 4, 99, 99] [] [] =
      runIntcode 1 3 [1105, 0, 4, 99, 99] [] [] := by
  refine ⟨?_, ?_, ?_⟩
  · exact ((claim_C3_jumps 1 0 [1105, 1, 4, 99, 99] [] []
      ⟨.Immediate, 1⟩ ⟨.Immediate, 4⟩ (by decide)).1 rfl).1 1 rfl
      (by decide) 4 4 rfl rfl
  · exact ((claim_C3_jumps 1 0 [1106, 0, 4, 99, 99] [] []
      ⟨.Immediate, 0⟩ ⟨.Immediate, 4⟩ (by decide)).2 rfl).1 rfl 4 4 rfl rfl
  · exact ((claim_C3_jumps 1 0 [1105, 0, 4, 99, 99] [] []
      ⟨.Immediate, 0⟩ ⟨.Immediate, 4⟩ (by decide)).1 rfl).2 rfl

end Intcode

namespace Intcode

theorem tryFrom_exit (v : Int) (h : Int.tmod v 100 = 99) :
    OpCode.tryFrom v = .ok .Exit := by
  simp [OpCode.tryFrom, h]

theorem readCommand_exit (memory : List Int) (ip : Nat) (v : Int)
    (hv : (memory.drop ip).head? = some v) (h : Int.tmod v 100 = 99) :
    readCommand memory ip = .ok (1, .Stop) := by
  simp [readCommand, hv, tryFrom_exit v h, Except.instMonad, Except.bind,
    OpCode.num_args, Command.from_op_code]

/-- C4: when the cell at the instruction pointer decodes to opcode 99,
execution halts immediately and successfully regardless of the remaining
memory contents: `run_intcode` returns the unchanged memory and the
accumulated output without executing anything further; on the machine
layer the state becomes Finished with `finished()` true, and a Finished
machine stays Finished (and produces nothing) under any later call. -/
theorem claim_C4_halt (fuel ip : Nat) (memory inputs outputs : List Int)
    (v : Int) (hip : ip ≤ memory.length)
    (hv : (memory.drop ip).head? = some v)
    (hop : Int.tmod v 100 = 99) :
    runIntcode (fuel + 1) ip memory inputs outputs =
      some (.ok (memory, outputs)) ∧
    (∀ m : IntCodeMachine, m.state ≠ .Finished → m.memory = memory →
      m.ip = ip →
      machineRun (fuel + 1) m inputs outputs =
        some (.ok ({ m with state := .Finished }, outputs)) ∧
      ({ m with state := .Finished } : IntCodeMachine).finished = true) ∧
    (∀ (m : IntCodeMachine) (fuel2 : Nat) (ins2 : List Int),
      m.state = .Finished →
      m.execute (fuel2 + 1) ins2 = some (.ok (m, [])) ∧ m.finished = true) := by
  refine ⟨?_, ?_, ?_⟩
  · simp [runIntcode, not_lt.mpr hip, readCommand_exit memory ip v hv hop]
  · intro m hm hmem hipm
    constructor
    · cases hs : m.state
      case Finished => exact absurd hs hm
      all_goals
        simp [machineRun, hs, hmem, hipm, not_lt.mpr hip,
          readCommand_exit memory ip v hv hop]
    · simp [IntCodeMachine.finished]
  · intro m fuel2 ins2 hs
    exact ⟨by simp [IntCodeMachine.execute, machineRun, hs],
      by simp [IntCodeMachine.finished, hs]⟩

theorem claim_C4_halt_witness :
    runIntcode 1 0 [99, 1, -7] [] [5] = some (.ok ([99, 1, -7], [5])) ∧
    machineRun 1 ⟨[99, 1, -7], 0, .Running⟩ [] [5] =
      some (.ok (⟨[99, 1, -7], 0, .Finished⟩, [5])) ∧
    IntCodeMachine.execute 1 ⟨[99, 1, -7], 0, .Finished⟩ [3] =
      some (.ok (⟨[99, 1, -7], 0, .Finished⟩, [])) := by
  have h := claim_C4_halt 0 0 [99, 1, -7] [] [5] 99 (by decide) rfl (by decide)
  exact ⟨h.1, (h.2.1 ⟨[99, 1, -7], 0, .Running⟩ (by decide) rfl rfl).1,
    (h.2.2 ⟨[99, 1, -7], 0, .Finished⟩ 0 [3] rfl).1⟩

end Intcode

namespace Intcode

/-- C7: if the instruction pointer moves past the memory length the run
fails with `UnexpectedEndOfFile` (both strictly past, and at the length
where no opcode cell remains); an instruction whose operand cells extend
past the end of memory also fails with `UnexpectedEndOfFile`; and a run
that returns normally was entered with the pointer within
`[0, memory length]`. -/
theorem claim_C7_bounds (fuel ip : Nat) (memory inputs outputs : List Int) :
    (ip > memory.length →
      runIntcode (fuel + 1) ip memory inputs outputs =
        some (.error (.intcode .UnexpectedEndOfFile))) ∧
    (ip = memory.length →
      runIntcode (fuel + 1) ip memory inputs outputs =
        some (.error (.intcode .UnexpectedEndOfFile))) ∧
    (∀ v op, (memory.drop ip).head? = some v → OpCode.tryFrom v = .ok op →
      memory.length < ip + 1 + op.num_args →
      runIntcode (fuel + 1) ip memory inputs outputs =
        some (.error (.intcode .UnexpectedEndOfFile))) ∧
    (∀ r, runIntcode fuel ip memory inputs outputs = some (.ok r) →
      ip ≤ memory.length) := by
  refine ⟨?_, ?_, ?_, ?_⟩
  · intro h
    simp [runIntcode, h]
  · intro h
    have hhead : (memory.drop ip).head? = none := by
      simp [List.head?_eq_none_iff, List.drop_eq_nil_iff, h]
    simp [runIntcode, h, readCommand, hhead, Except.instMonad, Except.bind]
  · intro v op hv hop hlen
    have hlt : ip < memory.length := by
      by_contra hge
      push_neg at hge
      rw [List.head?_eq_none_iff.mpr
        (by simp [List.drop_eq_nil_iff]; omega)] at hv
      cases hv
    have hip : ¬ (memory.length < ip) := by omega
    have hargs : memory.length - (ip + 1) < op.num_args := by omega
    simp [runIntcode, hip, readCommand, hv, hop, hargs,
      Except.instMonad, Except.bind]
  · intro r hr
    by_contra hgt
    push_neg at hgt
    cases fuel with
    | zero => simp [runIntcode] at hr
    | succ fuel => simp [runIntcode, hgt] at hr

end Intcode

namespace Intcode

theorem claim_C7_bounds_witness :
    runIntcode 1 3 [99, 1] [] [] =
      some (.error (.intcode .UnexpectedEndOfFile)) ∧
    runIntcode 1 2 [99, 1] [] [] =
      some (.error (.intcode .UnexpectedEndOfFile)) ∧
    runIntcode 1 0 [1101, 1] [] [] =
      some (.error (.intcode .UnexpectedEndOfFile)) ∧
    (0 : Nat) ≤ List.length ([99] : List Int) :=
  ⟨(claim_C7_bounds 0 3 [99, 1] [] []).1 (by decide),
   (claim_C7_bounds 0 2 [99, 1] [] []).2.1 rfl,
   (claim_C7_bounds 0 0 [1101, 1] [] []).2.2.1 1101
     (.Add .Immediate .Immediate .Reference) rfl rfl (by decide),
   (claim_C7_bounds 1 0 [99] [] []).2.2.2 ([99], []) rfl⟩

/-- C1: when a machine's current instruction decodes to Input and the
pending-input queue is empty, the execute call does not fail: the
instruction pointer stays at (is rolled back to) the start of the Input
instruction, the run state becomes Awaiting-Input, the call returns the
output accumulated so far, `finished()` is false, and re-executing the
suspended machine with a supplied input queue produces exactly the same
run as if that queue had been available from the start. -/
theorem claim_C1_input_suspend (fuel : Nat) (m : IntCodeMachine)
    (outputs : List Int) (p : Parameter) (adv : Nat)
    (hs : m.state ≠ .Finished)
    (hread : readCommand m.memory m.ip = .ok (adv, .Input p)) :
    machineRun (fuel + 1) m [] outputs =
      some (.ok ({ m with state := .AwaitingInput }, outputs)) ∧
    ({ m with state := .AwaitingInput } : IntCodeMachine).finished = false ∧
    (∀ fuel2 ins outs2,
      machineRun fuel2 ({ m with state := .AwaitingInput }) ins outs2 =
        machineRun fuel2 m ins outs2) := by
  have hlt : m.ip < m.memory.length := by
    by_contra hge
    push_neg at hge
    have hnone : (m.memory.drop m.ip).head? = none := by
      simp [List.head?_eq_none_iff, List.drop_eq_nil_iff]
      omega
    simp [readCommand, hnone, Except.instMonad, Except.bind] at hread
  refine ⟨?_, by simp [IntCodeMachine.finished], ?_⟩
  · cases hst : m.state
    case Finished => exact absurd hst hs
    all_goals simp [machineRun, hst, Nat.not_lt.mpr (Nat.le_of_lt hlt), hread]
  · intro fuel2 ins outs2
    cases fuel2 with
    | zero => simp [machineRun]
    | succ fuel2 =>
      cases hst : m.state
      case Finished => exact absurd hst hs
      all_goals simp [machineRun, hst]

theorem claim_C1_input_suspend_witness :
    machineRun 1 ⟨[3, 0, 4, 0, 99], 0, .Running⟩ [] [9] =
      some (.ok (⟨[3, 0, 4, 0, 99], 0, .AwaitingInput⟩, [9])) ∧
    (IntCodeMachine.mk [3, 0, 4, 0, 99] 0 .AwaitingInput).finished = false ∧
    machineRun 9 ⟨[3, 0, 4, 0, 99], 0, .AwaitingInput⟩ [7] [] =
      machineRun 9 ⟨[3, 0, 4, 0, 99], 0, .Running⟩ [7] [] := by
  have h := claim_C1_input_suspend 0 ⟨[3, 0, 4, 0, 99], 0, .Running⟩ [9]
    ⟨.Reference, 0⟩ 2 (by decide) rfl
  exact ⟨h.1, h.2.1, h.2.2 9 [7] []⟩

/-- C8: a pipeline of two executable units A and B executes by first
calling A on the input, feeding A's returned output as B's input and
returning B's output, and its `finished()` is true as soon as either
member is Finished (the disjunction of the members' flags), not only
when the last unit halts. -/
theorem claim_C8_pipe (fuel : Nat) (a b a2 b2 : ExecUnit)
    (ins outA outB : List Int)
    (ha : a.execute fuel ins = some (.ok (a2, outA)))
    (hb : b.execute fuel outA = some (.ok (b2, outB))) :
    (ExecUnit.pipe a b).execute fuel ins = some (.ok (.pipe a2 b2, outB)) ∧
    (∀ x y : ExecUnit, (ExecUnit.pipe x y).finished =
      (x.finished || y.finished)) := by
  refine ⟨?_, fun x y => rfl⟩
  simp [ExecUnit.execute, ha, hb]

theorem claim_C8_pipe_witness :
    (ExecUnit.pipe (.machine ⟨[99], 0, .Running⟩)
        (.machine ⟨[99], 0, .Running⟩)).execute 1 [5] =
      some (.ok (.pipe (.machine ⟨[99], 0, .Finished⟩)
        (.machine ⟨[99], 0, .Finished⟩), [])) ∧
    (∀ x y : ExecUnit, (ExecUnit.pipe x y).finished =
      (x.finished || y.finished)) :=
  claim_C8_pipe 1 (.machine ⟨[99], 0, .Running⟩) (.machine ⟨[99], 0, .Running⟩)
    (.machine ⟨[99], 0, .Finished⟩) (.machine ⟨[99], 0, .Finished⟩)
    [5] [] [] rfl rfl

end Intcode

namespace Intcode

theorem dropWhile_all (ws : List Char)
    (h : ∀ c ∈ ws, isWhitespace c = true) :
    ws.dropWhile isWhitespace = [] := by
  induction ws with
  | nil => rfl
  | cons c rest ih =>
    rw [List.dropWhile_cons, if_pos (h c (by simp))]
    exact ih fun c hc => h c (by simp [hc])

theorem dropWhile_ws_append (ws s : List Char)
    (h : ∀ c ∈ ws, isWhitespace c = true) :
    (ws ++ s).dropWhile isWhitespace = s.dropWhile isWhitespace := by
  induction ws with
  | nil => rfl
  | cons c rest ih =>
    rw [List.cons_append, List.dropWhile_cons, if_pos (h c (by simp))]
    exact ih fun c hc => h c (by simp [hc])

theorem trimChars_sandwich (ws1 ws2 s : List Char)
    (h1 : ∀ c ∈ ws1, isWhitespace c = true)
    (h2 : ∀ c ∈ ws2, isWhitespace c = true) :
    trimChars (ws1 ++ s ++ ws2) = trimChars s := by
  unfold trimChars
  rw [List.append_assoc, dropWhile_ws_append ws1 (s ++ ws2) h1,
    List.dropWhile_append]
  by_cases he : (s.dropWhile isWhitespace).isEmpty
  · rw [if_pos he, dropWhile_all ws2 h2]
    simp only [List.isEmpty_iff] at he
    rw [he]
  · rw [if_neg he, List.reverse_append,
      dropWhile_ws_append ws2.reverse _ (fun c hc => h2 c (by
        simpa using hc))]

theorem trimChars_eq_self (s : List Char)
    (hh : ∀ c, s.head? = some c → isWhitespace c = false)
    (hl : ∀ c, s.getLast? = some c → isWhitespace c = false) :
    trimChars s = s := by
  have front : ∀ t : List Char,
      (∀ c, t.head? = some c → isWhitespace c = false) →
      t.dropWhile isWhitespace = t := by
    intro t ht
    cases t with
    | nil => rfl
    | cons c rest => rw [List.dropWhile_cons, if_neg (by simp [ht c rfl])]
  unfold trimChars
  rw [front s hh, front s.reverse (fun c hc => hl c (by
    rwa [List.head?_reverse] at hc)), List.reverse_reverse]

end Intcode

namespace Intcode

theorem natToDigits_ne_nil (n : Nat) : natToDigits n ≠ [] := by
  unfold natToDigits
  split <;> simp

theorem natToDigits_mem (n : Nat) :
    ∀ c ∈ natToDigits n, ∃ d, d < 10 ∧ c = digitChar d := by
  induction n using Nat.strong_induction_on with
  | _ n ih =>
    intro c hc
    unfold natToDigits at hc
    split at hc
    · next h =>
      simp at hc
      exact ⟨n, h, hc⟩
    · next h =>
      rw [List.mem_append] at hc
      rcases hc with hc | hc
      · exact ih (n / 10) (Nat.div_lt_self (by omega) (by omega)) c hc
      · simp at hc
        exact ⟨n % 10, Nat.mod_lt _ (by omega), hc⟩

theorem digitVal_digitChar (d : Nat) (h : d < 10) :
    digitVal (digitChar d) = some d := by
  interval_cases d <;> decide

theorem parseNatAux_append (l1 l2 : List Char) (acc : Nat) :
    parseNatAux (l1 ++ l2) acc =
      match parseNatAux l1 acc with
      | none => none
      | some a => parseNatAux l2 a := by
  induction l1 generalizing acc with
  | nil => simp [parseNatAux]
  | cons c rest ih =>
    rw [List.cons_append]
    cases hdv : digitVal c with
    | none => simp [parseNatAux, hdv]
    | some d =>
      rw [show parseNatAux (c :: (rest ++ l2)) acc =
          parseNatAux (rest ++ l2) (acc * 10 + d) by simp [parseNatAux, hdv],
        show parseNatAux (c :: rest) acc =
          parseNatAux rest (acc * 10 + d) by simp [parseNatAux, hdv]]
      exact ih (acc * 10 + d)

theorem parseNatAux_natToDigits (n acc : Nat) :
    parseNatAux (natToDigits n) acc =
      some (acc * 10 ^ (natToDigits n).length + n) := by
  induction n using Nat.strong_induction_on generalizing acc with
  | _ n ih =>
    by_cases h : n < 10
    · rw [natToDigits, dif_pos h]
      simp [parseNatAux, digitVal_digitChar n h]
    · rw [natToDigits, dif_neg h, parseNatAux_append,
        ih (n / 10) (Nat.div_lt_self (by omega) (by omega)) acc]
      have hd := digitVal_digitChar (n % 10) (Nat.mod_lt n (by omega))
      simp only [parseNatAux, hd, List.length_append, List.length_cons,
        List.length_nil, Nat.zero_add, Option.some.injEq]
      rw [pow_succ]
      have e1 : (acc * 10 ^ (natToDigits (n / 10)).length + n / 10) * 10 +
          n % 10 =
          acc * (10 ^ (natToDigits (n / 10)).length * 10) +
            (n / 10 * 10 + n % 10) := by ring
      have e2 : n / 10 * 10 + n % 10 = n := by omega
      rw [e1, e2]

theorem parseNatDigits_natToDigits (n : Nat) :
    parseNatDigits (natToDigits n) = some n := by
  cases hnd : natToDigits n with
  | nil => exact absurd hnd (natToDigits_ne_nil n)
  | cons c rest =>
    unfold parseNatDigits
    have hp := parseNatAux_natToDigits n 0
    rw [hnd] at hp
    simpa using hp

end Intcode

namespace Intcode

theorem digitChar_plain (d : Nat) (h : d < 10) :
    digitChar d ≠ '-' ∧ digitChar d ≠ '+' ∧ digitChar d ≠ ',' ∧
      isWhitespace (digitChar d) = false := by
  interval_cases d <;> decide

theorem parseIsize_intToDigits (v : Int)
    (hr : -(2 ^ 63) ≤ v ∧ v ≤ 2 ^ 63 - 1) :
    parseIsize (intToDigits v) = some v := by
  have hr' : (-9223372036854775808 : Int) ≤ v ∧
      v ≤ 9223372036854775807 := by
    norm_num at hr
    exact hr
  by_cases hv : v < 0
  · have hcast : ((-v).toNat : Int) = -v := Int.toNat_of_nonneg (by omega)
    rw [intToDigits, if_pos hv]
    simp [parseIsize, parseNatDigits_natToDigits, hcast, hr'.1, hr'.2]
  · have hcast : (v.toNat : Int) = v := Int.toNat_of_nonneg (by omega)
    rw [intToDigits, if_neg hv]
    cases hnd : natToDigits v.toNat with
    | nil => exact absurd hnd (natToDigits_ne_nil _)
    | cons c rest =>
      obtain ⟨d, hd10, rfl⟩ := natToDigits_mem v.toNat c
        (hnd ▸ List.mem_cons_self c rest)
      obtain ⟨hm, hp, -, -⟩ := digitChar_plain d hd10
      rw [parseIsize]
      simp only [if_neg hm, if_neg hp]
      rw [← hnd, parseNatDigits_natToDigits]
      simp [hcast, hr'.1, hr'.2]

theorem splitComma_ne_nil (s : List Char) : splitComma s ≠ [] := by
  cases s with
  | nil => simp [splitComma]
  | cons c rest =>
    unfold splitComma
    cases splitComma rest with
    | nil => simp
    | cons f fs => by_cases hc : c = ',' <;> simp [hc]

theorem splitComma_no_comma (f : List Char) (hf : ∀ c ∈ f, c ≠ ',') :
    splitComma f = [f] := by
  induction f with
  | nil => rfl
  | cons c rest ih =>
    unfold splitComma
    rw [ih fun x hx => hf x (List.mem_cons_of_mem _ hx)]
    simp [hf c (List.mem_cons_self _ _)]

theorem splitComma_append (f s : List Char) (hf : ∀ c ∈ f, c ≠ ',') :
    splitComma (f ++ ',' :: s) = f :: splitComma s := by
  induction f with
  | nil =>
    rw [List.nil_append]
    conv_lhs => unfold splitComma
    cases h : splitComma s with
    | nil => exact absurd h (splitComma_ne_nil s)
    | cons g gs => simp
  | cons c rest ih =>
    rw [List.cons_append]
    conv_lhs => unfold splitComma
    rw [ih fun x hx => hf x (List.mem_cons_of_mem _ hx)]
    simp [hf c (List.mem_cons_self _ _)]

end Intcode

namespace Intcode

theorem intToDigits_chars (v : Int) :
    ∀ c ∈ intToDigits v, c = '-' ∨ ∃ d, d < 10 ∧ c = digitChar d := by
  intro c hc
  unfold intToDigits at hc
  split at hc
  · rcases List.mem_cons.mp hc with rfl | hmem
    · exact Or.inl rfl
    · exact Or.inr (natToDigits_mem _ c hmem)
  · exact Or.inr (natToDigits_mem _ c hc)

theorem intToDigits_ne_nil (v : Int) : intToDigits v ≠ [] := by
  unfold intToDigits
  split
  · simp
  · exact natToDigits_ne_nil _

theorem intToDigits_no_comma (v : Int) : ∀ c ∈ intToDigits v, c ≠ ',' := by
  intro c hc
  rcases intToDigits_chars v c hc with rfl | ⟨d, hd, rfl⟩
  · decide
  · exact (digitChar_plain d hd).2.2.1

theorem renderIntList_chars (l : List Int) :
    ∀ c ∈ renderIntList l, isWhitespace c = false := by
  induction l with
  | nil => intro c hc; cases hc
  | cons v rest ih =>
    intro c hc
    have hsingle : ∀ x ∈ intToDigits v, isWhitespace x = false := by
      intro x hx
      rcases intToDigits_chars v x hx with rfl | ⟨d, hd, rfl⟩
      · decide
      · exact (digitChar_plain d hd).2.2.2
    cases rest with
    | nil => exact hsingle c hc
    | cons w rs =>
      rw [renderIntList] at hc
      rcases List.mem_append.mp hc with hm | hm
      · exact hsingle c hm
      · rcases List.mem_cons.mp hm with rfl | hm
        · decide
        · exact ih c hm

theorem renderIntList_ne_nil (l : List Int) (hl : l ≠ []) :
    renderIntList l ≠ [] := by
  cases l with
  | nil => exact absurd rfl hl
  | cons v rest =>
    cases rest with
    | nil => exact intToDigits_ne_nil v
    | cons w rs =>
      rw [renderIntList]
      simp [intToDigits_ne_nil v]

theorem splitComma_render (l : List Int) (hl : l ≠ []) :
    splitComma (renderIntList l) = l.map intToDigits := by
  induction l with
  | nil => exact absurd rfl hl
  | cons v rest ih =>
    cases rest with
    | nil => exact splitComma_no_comma _ (intToDigits_no_comma v)
    | cons w rs =>
      rw [renderIntList, splitComma_append _ _ (intToDigits_no_comma v),
        ih (by simp)]
      rfl

theorem mapM_parseIsize_render (l : List Int)
    (hr : ∀ v ∈ l, -(2 ^ 63) ≤ v ∧ v ≤ 2 ^ 63 - 1) :
    (l.map intToDigits).mapM parseIsize = some l := by
  induction l with
  | nil => rfl
  | cons v rest ih =>
    rw [List.map_cons, List.mapM_cons,
      parseIsize_intToDigits v (hr v (List.mem_cons_self _ _)),
      ih fun x hx => hr x (List.mem_cons_of_mem _ hx)]
    rfl

theorem mapM_parseIsize_none (l : List (List Char)) (f : List Char)
    (hf : f ∈ l) (hnone : parseIsize f = none) :
    l.mapM parseIsize = none := by
  induction l with
  | nil => cases hf
  | cons g rest ih =>
    rw [List.mapM_cons]
    rcases List.mem_cons.mp hf with rfl | hmem
    · simp [hnone]
    · cases hg : parseIsize g with
      | none => simp [hg]
      | some val =>
        simp only [hg, ih hmem, Option.bind_eq_bind, Option.some_bind,
          Option.none_bind]

end Intcode

namespace Intcode

theorem head?_not_ws (t : List Char)
    (hall : ∀ c ∈ t, isWhitespace c = false) :
    ∀ c, t.head? = some c → isWhitespace c = false := by
  intro c hc
  apply hall
  cases t with
  | nil => cases hc
  | cons a rest =>
    simp at hc
    subst hc
    exact List.mem_cons_self _ _

theorem getLast?_not_ws (t : List Char)
    (hall : ∀ c ∈ t, isWhitespace c = false) :
    ∀ c, t.getLast? = some c → isWhitespace c = false := by
  intro c hc
  obtain ⟨h, rfl⟩ :=
    List.mem_getLast?_eq_getLast (show c ∈ t.getLast? from hc)
  exact hall _ (List.getLast_mem h)

/-- C9: program loading parses a single line as comma-separated base-10
signed integers with leading and trailing whitespace trimmed and returns
the memory sequence in order (round-trip over a rendered list with
arbitrary surrounding whitespace), and if any comma-separated field
fails to parse as an integer the load fails with a parse error, whose
type `LoadError` is distinct from the VM execution errors
(`IntCodeError` / `RunError`). -/
theorem claim_C9_loader (ws1 ws2 : List Char) (l : List Int) (s : List Char)
    (hw1 : ∀ c ∈ ws1, isWhitespace c = true)
    (hw2 : ∀ c ∈ ws2, isWhitespace c = true)
    (hl : l ≠ [])
    (hrange : ∀ v ∈ l, -(2 ^ 63) ≤ v ∧ v ≤ 2 ^ 63 - 1) :
    read_intcode_input (ws1 ++ renderIntList l ++ ws2) = .ok l ∧
    ((∃ f ∈ splitComma (trimChars s), parseIsize f = none) →
      read_intcode_input s = .error .parseIntError) := by
  constructor
  · rw [read_intcode_input, trimChars_sandwich _ _ _ hw1 hw2,
      trimChars_eq_self _ (head?_not_ws _ (renderIntList_chars l))
        (getLast?_not_ws _ (renderIntList_chars l)),
      splitComma_render l hl, mapM_parseIsize_render l hrange]
  · rintro ⟨f, hf, hnone⟩
    rw [read_intcode_input, mapM_parseIsize_none _ f hf hnone]

theorem claim_C9_loader_witness :
    read_intcode_input ([' '] ++ renderIntList [5, -3] ++ ['\n']) =
      .ok [5, -3] ∧
    read_intcode_input ['1', ',', 'x'] = .error .parseIntError := by
  have h := claim_C9_loader [' '] ['\n'] [5, -3] ['1', ',', 'x']
    (by decide) (by decide) (by decide) (by decide)
  exact ⟨h.1, h.2 ⟨['x'], by decide, rfl⟩⟩

end Intcode
